import Mathlib

/-!
Verification of the RooVersation conversation viewer/builder core logic.

The definitions below are shallow embeddings of the TypeScript source:
- `normalizeContent`, `toolUsesMissingResults`, `existingSummaryIds`,
  `existingTruncationIds`, `filteredMessages`, `hybridMessages` from the
  `ConversationView` component;
- the task-list reconciliation updater from `App.tsx`;
- `exportMessages`, `importMessages`, and the request-translation part of
  `testAPI` from `ConversationBuilder.tsx`.

JavaScript conventions carried over into the model:
- optional string fields become `Option String`, and the JS truthiness test
  `if (s)` becomes `strTruthy` (absent and the empty string are both falsy);
- `Array.prototype.sort` with a numeric comparator is a stable sort, modelled
  with `List.insertionSort` (which inserts an element after all earlier
  elements whose key is `≤` its own, hence stable);
- `Set` and `Map` are modelled as association lists with JS insertion-order
  update semantics (`addUnique`, `mapSet`);
- `crypto.randomUUID()` is modelled as a supplied stream of fresh ids.
-/

namespace RooVersation

/-- JS truthiness of an optional string: `undefined` and `""` are falsy. -/
def strTruthy : Option String → Bool
  | none => false
  | some s => s ≠ ""

/-- JS `o || d` for an optional string: the default replaces both `undefined`
and the empty string. -/
def orDefault (o : Option String) (d : String) : String :=
  match o with
  | none => d
  | some s => if s = "" then d else s

/-- `source` field of an image content block (types.ts). -/
structure ImageSource where
  type : String
  media_type : Option String := none
  data : Option String := none
deriving DecidableEq, Repr

/-- `ContentBlock` (types.ts): a tagged union with a string discriminant and
optional per-type fields. `input : Record<string, unknown>` is modelled as a
string-to-string association list. -/
structure ContentBlock where
  type : String
  text : Option String := none
  id : Option String := none
  name : Option String := none
  input : Option (List (String × String)) := none
  tool_use_id : Option String := none
  content : Option String := none
  is_error : Option Bool := none
  summary : Option (List String) := none
  source : Option ImageSource := none
deriving DecidableEq, Repr

/-- Message role: `'user' | 'assistant'`. -/
inductive Role where
  | user
  | assistant
deriving DecidableEq, Repr

/-- Content of a viewer message: `ContentBlock[] | string`
(the `Message` interface local to the `ConversationView` component). -/
inductive VContent where
  | blocks (bs : List ContentBlock)
  | str (s : String)
deriving DecidableEq, Repr

/-- Viewer `Message` (ConversationView): role, content that may still be a
legacy string, timestamp, and the condensation/truncation marker fields. -/
structure VMessage where
  role : Role
  content : VContent
  ts : Nat
  isSummary : Bool := false
  condenseId : Option String := none
  condenseParent : Option String := none
  isTruncationMarker : Bool := false
  truncationId : Option String := none
  truncationParent : Option String := none
deriving DecidableEq, Repr

/-- `normalizeContent`: a string becomes a single text block, an array is
passed through unchanged. (The defensive `String(content)` arm for untyped
runtime values has no inhabitant in the typed model.) -/
def normalizeContent : VContent → List ContentBlock
  | VContent.str s => [{ type := "text", text := some s }]
  | VContent.blocks bs => bs

/-- `UIMessage` (types imported by ConversationView): secondary status stream.
The `partial?` field is modelled as `isPartial`. -/
structure UIMessage where
  ts : Nat
  say : Option String := none
  ask : Option String := none
  text : Option String := none
  isPartial : Option Bool := none
deriving DecidableEq, Repr

/-- `existingSummaryIds`: the set of `condenseId` values on messages with
`isSummary` set and a truthy `condenseId`. -/
def existingSummaryIds (messages : List VMessage) : List String :=
  (messages.filter (fun m => m.isSummary && strTruthy m.condenseId)).map
    (fun m => m.condenseId.getD "")

/-- `existingTruncationIds`: the set of `truncationId` values on messages with
`isTruncationMarker` set and a truthy `truncationId`. -/
def existingTruncationIds (messages : List VMessage) : List String :=
  (messages.filter (fun m => m.isTruncationMarker && strTruthy m.truncationId)).map
    (fun m => m.truncationId.getD "")

/-- `filteredMessages`: when `filterCondensed` is on, drop messages whose
truthy `condenseParent` is among the existing summary ids or whose truthy
`truncationParent` is among the existing truncation ids. -/
def filteredMessages (filterCondensed : Bool) (messages : List VMessage) : List VMessage :=
  if !filterCondensed then messages
  else
    messages.filter (fun m =>
      if strTruthy m.condenseParent &&
          (existingSummaryIds messages).contains (m.condenseParent.getD "") then false
      else if strTruthy m.truncationParent &&
          (existingTruncationIds messages).contains (m.truncationParent.getD "") then false
      else true)

/-- `hiddenCount`: how many messages the condensation/truncation rule hides,
computed independently of the toggle. -/
def hiddenCount (messages : List VMessage) : Nat :=
  (messages.filter (fun m =>
    (strTruthy m.condenseParent &&
      (existingSummaryIds messages).contains (m.condenseParent.getD "")) ||
    (strTruthy m.truncationParent &&
      (existingTruncationIds messages).contains (m.truncationParent.getD "")))).length

/-- JS `Set.add`: append the element only when it is not already present. -/
def addUnique (s : List String) (x : String) : List String :=
  if s.contains x then s else s ++ [x]

/-- JS `Map.set`: overwrite the value when the key exists (keeping insertion
order), otherwise append the new entry. -/
def mapSet (m : List (String × Nat × Nat)) (k : String) (v : Nat × Nat) :
    List (String × Nat × Nat) :=
  if m.any (fun p => p.1 == k) then
    m.map (fun p => if p.1 == k then (k, v) else p)
  else m ++ [(k, v)]

/-- Accumulator of the forward scan in `toolUsesMissingResults`:
the `toolResultIds` set and the `toolUsePositions` map. -/
abbrev ScanAcc := List String × List (String × Nat × Nat)

/-- One step of the inner `forEach` over a message's normalized blocks:
record a truthy `tool_result.tool_use_id` as answered, and a truthy
`tool_use.id` at its `(messageIndex, blockIndex)` position. -/
def scanBlock (messageIndex : Nat) (acc : ScanAcc) (bi : Nat × ContentBlock) : ScanAcc :=
  let acc1 :=
    if bi.2.type == "tool_result" && strTruthy bi.2.tool_use_id then
      (addUnique acc.1 (bi.2.tool_use_id.getD ""), acc.2)
    else acc
  if bi.2.type == "tool_use" && strTruthy bi.2.id then
    (acc1.1, mapSet acc1.2 (bi.2.id.getD "") (messageIndex, bi.1))
  else acc1

/-- The inner `forEach` over one message's normalized content. -/
def scanMessage (acc : ScanAcc) (mi : Nat × VMessage) : ScanAcc :=
  (normalizeContent mi.2.content).enum.foldl (scanBlock mi.1) acc

/-- The outer `forEach` of `toolUsesMissingResults`: collect
`toolResultIds` and `toolUsePositions` over the whole conversation. -/
def toolScan (messages : List VMessage) : ScanAcc :=
  messages.enum.foldl scanMessage ([], [])

/-- `toolUsesMissingResults`: a recorded tool-use id is missing when it is not
answered by any tool result and its recorded message index lies strictly
before the last message. -/
def toolUsesMissingResults (messages : List VMessage) : List String :=
  let scanned := toolScan messages
  ((scanned.2.filter (fun p =>
      !scanned.1.contains p.1 && p.2.1 < messages.length - 1)).map (fun p => p.1))

/-- One timeline item of the hybrid view: an API message or a UI message,
tagged with its timestamp. -/
inductive HybridItem where
  | api (message : VMessage) (ts : Nat)
  | ui (uiMsg : UIMessage) (ts : Nat)
deriving DecidableEq, Repr

/-- The timestamp an item was tagged with. -/
def HybridItem.ts : HybridItem → Nat
  | HybridItem.api _ t => t
  | HybridItem.ui _ t => t

/-- The comparator `(a, b) => a.ts - b.ts` orders items by tagged timestamp. -/
abbrev tsLe (a b : HybridItem) : Prop := a.ts ≤ b.ts

instance : DecidableRel tsLe := fun a b => Nat.decLe a.ts b.ts

instance : IsTotal HybridItem tsLe := ⟨fun a b => Nat.le_total a.ts b.ts⟩

instance : IsTrans HybridItem tsLe := ⟨fun _ _ _ h h2 => Nat.le_trans h h2⟩

/-- The `items` array of `hybridMessages` before sorting: every filtered API
message tagged with its timestamp, then every UI message tagged with its
timestamp. -/
def hybridInput (filtered : List VMessage) (uiMsgs : List UIMessage) : List HybridItem :=
  filtered.map (fun m => HybridItem.api m m.ts) ++
    uiMsgs.map (fun u => HybridItem.ui u u.ts)

/-- Core of `hybridMessages`: tag both streams, concatenate (API items first),
and stable-sort ascending by timestamp (`Array.prototype.sort` is stable). -/
def hybridItems (filtered : List VMessage) (uiMsgs : List UIMessage) : List HybridItem :=
  List.insertionSort tsLe (hybridInput filtered uiMsgs)

/-- `hybridMessages`: empty unless the UI toggle is on and a UI stream exists;
otherwise the stable merge of the filtered API stream with the UI stream. -/
def hybridMessages (showUiMessages : Bool) (uiMessages : Option (List UIMessage))
    (filtered : List VMessage) : List HybridItem :=
  if !showUiMessages then []
  else
    match uiMessages with
    | none => []
    | some u => hybridItems filtered u

/-- `Task` (types.ts). -/
structure Task where
  id : String
  timestamp : Nat
  firstMessage : String
deriving DecidableEq, Repr

/-- The descending-timestamp comparator `(a, b) => b.timestamp - a.timestamp`. -/
abbrev taskGe (a b : Task) : Prop := b.timestamp ≤ a.timestamp

instance : DecidableRel taskGe := fun a b => Nat.decLe b.timestamp a.timestamp

instance : IsTotal Task taskGe := ⟨fun a b => Nat.le_total b.timestamp a.timestamp⟩

instance : IsTrans Task taskGe := ⟨fun _ _ _ h h2 => Nat.le_trans h2 h⟩

/-- The `setTasks` updater of the task-poll interval in `App.tsx`: partition
the fetched list by id novelty; with no new ids, copy fresh timestamps onto
the previous entries; otherwise prepend the new tasks to the previous list
unchanged; in both cases stable-sort descending by timestamp. -/
def reconcileTasks (prevTasks data : List Task) : List Task :=
  let existingIds := prevTasks.map (fun t => t.id)
  let newTasks := data.filter (fun t => !existingIds.contains t.id)
  if newTasks.length = 0 then
    let updatedTasks := prevTasks.map (fun prevTask =>
      match data.find? (fun t => t.id == prevTask.id) with
      | some updated => { prevTask with timestamp := updated.timestamp }
      | none => prevTask)
    List.insertionSort taskGe updatedTasks
  else
    List.insertionSort taskGe (newTasks ++ prevTasks)

/-- Builder `Message` (types.ts): content is always a block array. -/
structure BMessage where
  role : Role
  content : List ContentBlock
  ts : Nat
  isSummary : Bool := false
  condenseId : Option String := none
  condenseParent : Option String := none
  isTruncationMarker : Bool := false
  truncationId : Option String := none
  truncationParent : Option String := none
deriving DecidableEq, Repr

/-- `Message & { _id: string }`: a draft message with its client-only id. -/
structure DraftMessage where
  localId : String
  payload : BMessage
deriving DecidableEq, Repr

/-- A message as it appears in an imported JSON array: its `content` may be a
legacy string instead of a block array. -/
structure RawMessage where
  role : Role
  content : VContent
  ts : Nat
  isSummary : Bool := false
  condenseId : Option String := none
  condenseParent : Option String := none
  isTruncationMarker : Bool := false
  truncationId : Option String := none
  truncationParent : Option String := none
deriving DecidableEq, Repr

/-- The JSON shape `exportMessages` serializes a stripped builder message to
(the identity embedding into the import-side shape). -/
def BMessage.toRaw (m : BMessage) : RawMessage :=
  { role := m.role, content := VContent.blocks m.content, ts := m.ts,
    isSummary := m.isSummary, condenseId := m.condenseId,
    condenseParent := m.condenseParent, isTruncationMarker := m.isTruncationMarker,
    truncationId := m.truncationId, truncationParent := m.truncationParent }

/-- `exportMessages`: strip the local `_id` from every draft message
(`messages.map(({ _id, ...rest }) => rest)`); the download plumbing is not
modelled. -/
def exportMessages (messages : List DraftMessage) : List BMessage :=
  messages.map (fun d => d.payload)

/-- The per-entry import step: attach a fresh local id and force `content`
into block-array form (`Array.isArray(msg.content) ? msg.content :
[{type:'text', text: String(msg.content)}]`). -/
def importOne (freshId : String) (msg : RawMessage) : DraftMessage :=
  { localId := freshId,
    payload :=
      { role := msg.role,
        content :=
          match msg.content with
          | VContent.blocks bs => bs
          | VContent.str s => [{ type := "text", text := some s }],
        ts := msg.ts,
        isSummary := msg.isSummary, condenseId := msg.condenseId,
        condenseParent := msg.condenseParent,
        isTruncationMarker := msg.isTruncationMarker,
        truncationId := msg.truncationId, truncationParent := msg.truncationParent } }

/-- The map of `importMessages` over a successfully parsed array: each entry
receives the next id from the fresh-id stream (`crypto.randomUUID()`). -/
def importWithIds (fresh : Nat → String) (i : Nat) : List RawMessage → List DraftMessage
  | [] => []
  | msg :: rest => importOne (fresh i) msg :: importWithIds fresh (i + 1) rest

/-- Outcome of `JSON.parse` on the imported file, as seen by the
`importMessages` handler. -/
inductive ImportInput where
  | badJson
  | jsonArray (data : List RawMessage)
  | jsonNonArray
deriving Repr

/-- `importMessages`: parse failure alerts and keeps the draft; an array
replaces the draft wholesale; a non-array parse result falls through the
`Array.isArray` guard with no state change and no alert. The `Bool` records
whether a user-visible error (`alert`) was raised. -/
def importMessages (current : List DraftMessage) (fresh : Nat → String)
    (input : ImportInput) : List DraftMessage × Bool :=
  match input with
  | ImportInput.badJson => (current, true)
  | ImportInput.jsonArray data => (importWithIds fresh 0 data, false)
  | ImportInput.jsonNonArray => (current, false)

/-- One content entry of an external (chat-completions style) user message. -/
inductive OAIPart where
  | textPart (text : String)
  | imagePart (url : String)
  | otherPart (b : ContentBlock)
deriving DecidableEq, Repr

/-- `content` of an external message: a part array (user), a joined string
(assistant/tool), or JS `null`. -/
inductive OAIContent where
  | parts (ps : List OAIPart)
  | str (s : String)
  | null
deriving DecidableEq, Repr

/-- One external `tool_calls` entry (`{id, type:'function', function:
{name, arguments}}`). -/
structure OAIToolCall where
  id : String
  callType : String
  fnName : String
  fnArguments : String
deriving DecidableEq, Repr

/-- An external chat-completions message as built by `testAPI`. -/
structure OAIMessage where
  role : String
  content : OAIContent
  tool_call_id : Option String := none
  tool_calls : Option (List OAIToolCall) := none
deriving DecidableEq, Repr

/-- `JSON.stringify` on the (string-valued) tool-use `input` record. -/
def stringifyInput (kvs : List (String × String)) : String :=
  "\x7b" ++ String.intercalate ","
    (kvs.map (fun kv => "\"" ++ kv.1 ++ "\":\"" ++ kv.2 ++ "\"")) ++ "\x7d"

/-- The mapping `testAPI` applies to a non-tool-result block of a user
message: text passes through, an image with a source becomes a data-URL
entry, anything else is pushed unchanged. -/
def userBlockToPart (b : ContentBlock) : OAIPart :=
  if b.type == "text" then OAIPart.textPart (orDefault b.text "")
  else
    match b.source with
    | some src =>
      if b.type == "image" then
        OAIPart.imagePart
          ("data:" ++ orDefault src.media_type "image/png" ++ ";base64," ++
            orDefault src.data "")
      else OAIPart.otherPart b
    | none => OAIPart.otherPart b

/-- The external messages `testAPI` emits for one draft message: a user
message is split into per-tool-result `tool` messages followed by one user
message for the remaining blocks (if any); an assistant message joins its
text blocks and converts its tool uses to `tool_calls`. -/
def translateMessage (msg : BMessage) : List OAIMessage :=
  match msg.role with
  | Role.user =>
    let toolResultBlocks := msg.content.filter (fun b => b.type == "tool_result")
    let otherBlocks := msg.content.filter (fun b => b.type != "tool_result")
    let toolMsgs := toolResultBlocks.map (fun toolResult =>
      { role := "tool",
        tool_call_id := some (orDefault toolResult.tool_use_id ""),
        content := OAIContent.str (orDefault toolResult.content "") : OAIMessage })
    toolMsgs ++
      (if otherBlocks.length > 0 then
        [{ role := "user",
           content := OAIContent.parts (otherBlocks.map userBlockToPart) : OAIMessage }]
      else [])
  | Role.assistant =>
    let toolUseBlocks := msg.content.filter (fun b => b.type == "tool_use")
    let textBlocks := msg.content.filter (fun b => b.type == "text")
    [{ role := "assistant",
       content :=
         if textBlocks.length > 0 then
           OAIContent.str (String.intercalate "\n"
             (textBlocks.map (fun b => orDefault b.text "")))
         else OAIContent.null,
       tool_calls :=
         if toolUseBlocks.length > 0 then
           some (toolUseBlocks.map (fun block =>
             { id := orDefault block.id "", callType := "function",
               fnName := orDefault block.name "",
               fnArguments := stringifyInput (block.input.getD []) }))
         else none }]

/-- The `cleanMessages` loop of `testAPI`: translate every draft message in
order, accumulating the emitted external messages. -/
def translateMessages (messages : List BMessage) : List OAIMessage :=
  messages.foldl (fun acc msg => acc ++ translateMessage msg) []

/-- The hybrid view as wired in the component: `hybridMessages` consumes
`filteredMessages` (not the raw message list). -/
def hybridPipeline (showUiMessages : Bool) (uiMessages : Option (List UIMessage))
    (filterCondensed : Bool) (messages : List VMessage) : List HybridItem :=
  hybridMessages showUiMessages uiMessages (filteredMessages filterCondensed messages)

/-- Spec-side predicate (§4.3 of the spec): the message's `condenseParent` is
set and equals the `condenseId` of some message with `isSummary` set. -/
def condensedAway (messages : List VMessage) (m : VMessage) : Bool :=
  strTruthy m.condenseParent &&
    messages.any (fun s => s.isSummary && s.condenseId == m.condenseParent)

/-- Spec-side predicate: the message's `truncationParent` is set and equals
the `truncationId` of some message with `isTruncationMarker` set. -/
def truncatedAway (messages : List VMessage) (m : VMessage) : Bool :=
  strTruthy m.truncationParent &&
    messages.any (fun s => s.isTruncationMarker && s.truncationId == m.truncationParent)

/-- Spec-side predicate: some normalized block of the message is a
`tool_result` carrying the given (truthy) id as `tool_use_id`. -/
def msgHasResult (m : VMessage) (id : String) : Bool :=
  (normalizeContent m.content).any
    (fun b => b.type == "tool_result" && b.tool_use_id == some id && id != "")

/-- Spec-side predicate: some normalized block of the message is a `tool_use`
carrying the given (truthy) id. -/
def msgHasUse (m : VMessage) (id : String) : Bool :=
  (normalizeContent m.content).any
    (fun b => b.type == "tool_use" && b.id == some id && id != "")

/-- Spec-side predicate: some tool result anywhere in the conversation
answers the given id. -/
def answeredB (messages : List VMessage) (id : String) : Bool :=
  messages.any (fun m => msgHasResult m id)

/-- Spec-side predicate: some message contains a tool use with the given id. -/
def usedB (messages : List VMessage) (id : String) : Bool :=
  messages.any (fun m => msgHasUse m id)

/-- Spec-side predicate: the last message of the conversation contains a tool
use with the given id. -/
def usedInLastB (messages : List VMessage) (id : String) : Bool :=
  match messages.getLast? with
  | some m => msgHasUse m id
  | none => false

/-- The index of the last message containing a tool use of the given id, with
message indices starting at `n` (`none` when there is no such message). -/
def lastUseFrom (n : Nat) (messages : List VMessage) (id : String) : Option Nat :=
  match messages with
  | [] => none
  | m :: rest =>
    match lastUseFrom (n + 1) rest id with
    | some i => some i
    | none => if msgHasUse m id then some n else none

/-! ### Stability of the modelled `Array.prototype.sort` -/

/-- Inserting into a list leaves the sublist of elements with any fixed key
unchanged, except for prepending the inserted element when its key matches;
this needs only that the order relation holds on key ties. -/
theorem filter_orderedInsert {α : Type} (r : α → α → Prop) [DecidableRel r]
    (key : α → Nat) (htie : ∀ a b, key a = key b → r a b) (t : Nat) (a : α) :
    ∀ l : List α,
      (List.orderedInsert r a l).filter (fun x => key x == t) =
        if key a == t then a :: l.filter (fun x => key x == t)
        else l.filter (fun x => key x == t)
  | [] => by
    simp only [List.orderedInsert, List.filter]
    split <;> simp_all
  | b :: bs => by
    by_cases hr : r a b
    · simp only [List.orderedInsert, if_pos hr, List.filter_cons]
    · have hk : key a ≠ key b := fun h => hr (htie a b h)
      simp only [List.orderedInsert, if_neg hr, List.filter_cons,
        filter_orderedInsert r key htie t a bs]
      by_cases hat : (key a == t) = true <;> by_cases hbt : (key b == t) = true <;>
        simp_all [beq_iff_eq]

/-- A stable sort: the sublist of elements carrying any fixed key is exactly
that sublist of the input, in input order. -/
theorem filter_insertionSort {α : Type} (r : α → α → Prop) [DecidableRel r]
    (key : α → Nat) (htie : ∀ a b, key a = key b → r a b) (t : Nat) :
    ∀ l : List α,
      (List.insertionSort r l).filter (fun x => key x == t) =
        l.filter (fun x => key x == t)
  | [] => rfl
  | a :: l => by
    simp only [List.insertionSort,
      filter_orderedInsert r key htie t a (List.insertionSort r l),
      filter_insertionSort r key htie t l, List.filter_cons]

/-- C6: the dual-stream merge returns a permutation of the tagged items of
both inputs, sorted non-decreasing by timestamp, and stably so: the items
carrying any fixed timestamp appear exactly as in the concatenated input
(each stream's internal order preserved, API items before UI items). -/
theorem hybridItems_stable_sorted_perm (filtered : List VMessage)
    (uiMsgs : List UIMessage) :
    (hybridItems filtered uiMsgs).Perm (hybridInput filtered uiMsgs) ∧
      List.Sorted tsLe (hybridItems filtered uiMsgs) ∧
      ∀ t : Nat,
        (hybridItems filtered uiMsgs).filter (fun x => x.ts == t) =
          (hybridInput filtered uiMsgs).filter (fun x => x.ts == t) := by
  refine ⟨List.perm_insertionSort tsLe _, List.sorted_insertionSort tsLe _, fun t => ?_⟩
  exact filter_insertionSort tsLe HybridItem.ts
    (fun a b h => le_of_eq h) t (hybridInput filtered uiMsgs)

/-! ### Task-list reconciliation -/

/-- The fetched tasks whose id does not occur among the previous tasks. -/
def newTasksOf (prevTasks data : List Task) : List Task :=
  data.filter (fun t => !(prevTasks.map (fun p => p.id)).contains t.id)

/-- C1 counterexample: on the spec's own test input the new-task path keeps
the previous entry's old timestamp 100; the result is not the claimed
`[{id:1,ts:200},{id:2,ts:50}]`. -/
theorem reconcileTasks_example_keeps_old_timestamp :
    (reconcileTasks [⟨"1", 100, ""⟩] [⟨"1", 200, ""⟩, ⟨"2", 50, ""⟩]).map
        (fun t => (t.id, t.timestamp)) = [("1", 100), ("2", 50)] ∧
      (reconcileTasks [⟨"1", 100, ""⟩] [⟨"1", 200, ""⟩, ⟨"2", 50, ""⟩]).map
          (fun t => (t.id, t.timestamp)) ≠ [("1", 200), ("2", 50)] := by
  constructor
  · rfl
  · decide

/-- C1 (amended): when the fetched list contains at least one task with a new
id, the result is a stable descending-timestamp sort of the new tasks
prepended to the previous list, the previous entries kept verbatim (their
timestamps are not refreshed on this path). -/
theorem reconcileTasks_new_path (prevTasks data : List Task)
    (h : newTasksOf prevTasks data ≠ []) :
    (reconcileTasks prevTasks data).Perm (newTasksOf prevTasks data ++ prevTasks) ∧
      List.Sorted taskGe (reconcileTasks prevTasks data) ∧
      ∀ ts : Nat,
        (reconcileTasks prevTasks data).filter (fun t => t.timestamp == ts) =
          (newTasksOf prevTasks data ++ prevTasks).filter
            (fun t => t.timestamp == ts) := by
  have hlen : (newTasksOf prevTasks data).length ≠ 0 := by
    simpa [List.length_eq_zero] using h
  have hcode : reconcileTasks prevTasks data =
      List.insertionSort taskGe (newTasksOf prevTasks data ++ prevTasks) := by
    simp only [reconcileTasks, newTasksOf] at hlen ⊢
    rw [if_neg hlen]
  rw [hcode]
  refine ⟨List.perm_insertionSort taskGe _, List.sorted_insertionSort taskGe _, fun ts => ?_⟩
  exact filter_insertionSort taskGe (fun t => t.timestamp)
    (fun a b hk => le_of_eq hk.symm) ts _

/-- Witness for C1 (amended) at the spec's test input. -/
theorem reconcileTasks_new_path_witness :
    newTasksOf [⟨"1", 100, ""⟩] [⟨"1", 200, ""⟩, ⟨"2", 50, ""⟩] ≠ [] ∧
      (reconcileTasks [⟨"1", 100, ""⟩] [⟨"1", 200, ""⟩, ⟨"2", 50, ""⟩]).Perm
        (newTasksOf [⟨"1", 100, ""⟩] [⟨"1", 200, ""⟩, ⟨"2", 50, ""⟩] ++
          [⟨"1", 100, ""⟩]) :=
  ⟨by decide,
    (reconcileTasks_new_path [⟨"1", 100, ""⟩] [⟨"1", 200, ""⟩, ⟨"2", 50, ""⟩]
      (by decide)).1⟩

/-! ### Condensation/truncation filter -/

theorem summaryIds_contains (p : String) (hp : p ≠ "") :
    ∀ msgs : List VMessage,
      (existingSummaryIds msgs).contains p =
        msgs.any (fun s => s.isSummary && s.condenseId == some p)
  | [] => rfl
  | m :: ms => by
    have ih := summaryIds_contains p hp ms
    simp only [existingSummaryIds, List.filter_cons, List.any_cons] at ih ⊢
    by_cases h1 : (m.isSummary && strTruthy m.condenseId) = true
    · rw [if_pos h1, List.map_cons, List.contains_cons, ih]
      rw [Bool.and_eq_true] at h1
      obtain ⟨hsum, htr⟩ := h1
      cases hc : m.condenseId with
      | none => rw [hc] at htr; simp [strTruthy] at htr
      | some s =>
        have hps : (p == s) = (s == p) := by
          by_cases h : p = s
          · subst h; rfl
          · have h2 : s ≠ p := fun hh => h hh.symm
            simp [h, h2]
        simp only [hc, hsum, Option.getD_some, Bool.true_and, hps]
        rfl
    · rw [if_neg h1, ih]
      have h2 : (m.isSummary && m.condenseId == some p) = false := by
        cases hc : m.condenseId with
        | none => simp
        | some s =>
          by_cases hs : s = ""
          · subst hs
            simp [beq_iff_eq, Ne.symm hp]
          · rw [hc] at h1
            simp [strTruthy, hs] at h1
            simp [h1]
      rw [h2, Bool.false_or]

theorem truncationIds_contains (p : String) (hp : p ≠ "") :
    ∀ msgs : List VMessage,
      (existingTruncationIds msgs).contains p =
        msgs.any (fun s => s.isTruncationMarker && s.truncationId == some p)
  | [] => rfl
  | m :: ms => by
    have ih := truncationIds_contains p hp ms
    simp only [existingTruncationIds, List.filter_cons, List.any_cons] at ih ⊢
    by_cases h1 : (m.isTruncationMarker && strTruthy m.truncationId) = true
    · rw [if_pos h1, List.map_cons, List.contains_cons, ih]
      rw [Bool.and_eq_true] at h1
      obtain ⟨hsum, htr⟩ := h1
      cases hc : m.truncationId with
      | none => rw [hc] at htr; simp [strTruthy] at htr
      | some s =>
        have hps : (p == s) = (s == p) := by
          by_cases h : p = s
          · subst h; rfl
          · have h2 : s ≠ p := fun hh => h hh.symm
            simp [h, h2]
        simp only [hc, hsum, Option.getD_some, Bool.true_and, hps]
        rfl
    · rw [if_neg h1, ih]
      have h2 : (m.isTruncationMarker && m.truncationId == some p) = false := by
        cases hc : m.truncationId with
        | none => simp
        | some s =>
          by_cases hs : s = ""
          · subst hs
            simp [beq_iff_eq, Ne.symm hp]
          · rw [hc] at h1
            simp [strTruthy, hs] at h1
            simp [h1]
      rw [h2, Bool.false_or]

/-- The code's summary-set test coincides with the spec-side existential. -/
theorem condParent_test_eq (msgs : List VMessage) (m : VMessage) :
    (strTruthy m.condenseParent &&
        (existingSummaryIds msgs).contains (m.condenseParent.getD "")) =
      condensedAway msgs m := by
  cases hc : m.condenseParent with
  | none => simp [condensedAway, strTruthy, hc]
  | some p =>
    by_cases hp : p = ""
    · subst hp
      simp [condensedAway, strTruthy, hc]
    · simp only [condensedAway, hc, Option.getD_some,
        summaryIds_contains p hp msgs]

/-- The code's truncation-set test coincides with the spec-side existential. -/
theorem truncParent_test_eq (msgs : List VMessage) (m : VMessage) :
    (strTruthy m.truncationParent &&
        (existingTruncationIds msgs).contains (m.truncationParent.getD "")) =
      truncatedAway msgs m := by
  cases hc : m.truncationParent with
  | none => simp [truncatedAway, strTruthy, hc]
  | some p =>
    by_cases hp : p = ""
    · subst hp
      simp [truncatedAway, strTruthy, hc]
    · simp only [truncatedAway, hc, Option.getD_some,
        truncationIds_contains p hp msgs]

/-- The active filter is exactly the spec-side parent-reference filter. -/
theorem filteredMessages_eq_filter (msgs : List VMessage) :
    filteredMessages true msgs =
      msgs.filter (fun m => !(condensedAway msgs m || truncatedAway msgs m)) := by
  have hfun : (fun m =>
      if strTruthy m.condenseParent &&
          (existingSummaryIds msgs).contains (m.condenseParent.getD "") then false
      else if strTruthy m.truncationParent &&
          (existingTruncationIds msgs).contains (m.truncationParent.getD "") then false
      else true) =
      (fun m => !(condensedAway msgs m || truncatedAway msgs m)) := by
    funext m
    rw [condParent_test_eq msgs m, truncParent_test_eq msgs m]
    by_cases h1 : condensedAway msgs m = true <;>
      by_cases h2 : truncatedAway msgs m = true <;> simp [h1, h2]
  simp only [filteredMessages, Bool.not_true, Bool.false_eq_true, if_false, hfun]

/-- C5: with the toggle on, a message is excluded from the filtered view iff
its (truthy) `condenseParent` equals the `condenseId` of some summary message
or its (truthy) `truncationParent` equals the `truncationId` of some
truncation marker; all other messages are kept in their original order. -/
theorem filteredMessages_excludes_iff (msgs : List VMessage) :
    filteredMessages true msgs =
      msgs.filter (fun m => !(condensedAway msgs m || truncatedAway msgs m)) :=
  filteredMessages_eq_filter msgs

/-- C3 counterexample: a summary message whose own `condenseParent` matches an
existing summary id (here its own `condenseId`) IS excluded by the filter,
contradicting the claim that summary/marker messages are never excluded. -/
theorem summary_with_matching_parent_excluded :
    filteredMessages true
      [{ role := Role.assistant, content := VContent.str "s", ts := 1,
         isSummary := true, condenseId := some "g1",
         condenseParent := some "g1" }] = [] := by
  decide

/-- C3 (amended): a summary or truncation-marker message is excluded under
exactly the same parent-reference rule as any other message; in particular it
is kept whenever it carries no truthy `condenseParent`/`truncationParent`
matching an existing summary/truncation id. -/
theorem summary_marker_kept_without_matching_parent (msgs : List VMessage)
    (m : VMessage) (hm : m ∈ msgs)
    (_hmark : m.isSummary = true ∨ m.isTruncationMarker = true)
    (hc : condensedAway msgs m = false) (ht : truncatedAway msgs m = false) :
    m ∈ filteredMessages true msgs := by
  rw [filteredMessages_eq_filter msgs]
  exact List.mem_filter.mpr ⟨hm, by simp [hc, ht]⟩

/-- Witness for C3 (amended): the spec's own condensation example, where the
summary `S` itself stays visible. -/
theorem summary_marker_kept_witness :
    ({ role := Role.assistant, content := VContent.str "sum", ts := 3,
       isSummary := true, condenseId := some "g1" } : VMessage) ∈
      filteredMessages true
        [{ role := Role.assistant, content := VContent.str "sum", ts := 3,
           isSummary := true, condenseId := some "g1" },
         { role := Role.user, content := VContent.str "m3", ts := 4,
           condenseParent := some "g1" }] :=
  summary_marker_kept_without_matching_parent _ _ (by decide) (Or.inl rfl)
    (by decide) (by decide)

/-! ### Hybrid pipeline wiring (C9) -/

/-- C9: the merge consumes the filtered list. With the condensation filter on,
a message hidden by it never appears as an api-tagged item of the hybrid
output; with the filter off, every API message appears. -/
theorem hybridPipeline_respects_filter (msgs : List VMessage)
    (ui : List UIMessage) (m : VMessage) :
    ((condensedAway msgs m || truncatedAway msgs m) = true →
        HybridItem.api m m.ts ∉ hybridPipeline true (some ui) true msgs) ∧
      (m ∈ msgs → HybridItem.api m m.ts ∈ hybridPipeline true (some ui) false msgs) := by
  constructor
  · intro hex hmem
    have hmem2 : HybridItem.api m m.ts ∈
        hybridInput (filteredMessages true msgs) ui := by
      simpa [hybridPipeline, hybridMessages, hybridItems,
        List.mem_insertionSort] using hmem
    rcases List.mem_append.mp hmem2 with hapi | hui
    · obtain ⟨x, hx, hxe⟩ := List.mem_map.mp hapi
      cases hxe
      rw [filteredMessages_eq_filter msgs] at hx
      have := (List.mem_filter.mp hx).2
      simp [hex] at this
    · obtain ⟨x, _, hxe⟩ := List.mem_map.mp hui
      exact HybridItem.noConfusion hxe
  · intro hmem
    have hfil : filteredMessages false msgs = msgs := by
      simp [filteredMessages]
    simp only [hybridPipeline, hybridMessages, hybridItems, Bool.not_true,
      Bool.false_eq_true, if_false, List.mem_insertionSort, hfil]
    exact List.mem_append.mpr (Or.inl (List.mem_map.mpr ⟨m, hmem, rfl⟩))

/-- Witness for C9 on the spec's condensation example: the condensed message
`m3` is absent from the hybrid view with the filter on, and present with the
filter off. -/
theorem hybridPipeline_respects_filter_witness :
    (HybridItem.api
        { role := Role.user, content := VContent.str "m3", ts := 4,
          condenseParent := some "g1" } 4 ∉
      hybridPipeline true (some [{ ts := 2 }]) true
        [{ role := Role.assistant, content := VContent.str "sum", ts := 3,
           isSummary := true, condenseId := some "g1" },
         { role := Role.user, content := VContent.str "m3", ts := 4,
           condenseParent := some "g1" }]) ∧
      (HybridItem.api
          { role := Role.user, content := VContent.str "m3", ts := 4,
            condenseParent := some "g1" } 4 ∈
        hybridPipeline true (some [{ ts := 2 }]) false
          [{ role := Role.assistant, content := VContent.str "sum", ts := 3,
             isSummary := true, condenseId := some "g1" },
           { role := Role.user, content := VContent.str "m3", ts := 4,
             condenseParent := some "g1" }]) :=
  ⟨(hybridPipeline_respects_filter _ _ _).1 (by decide),
    (hybridPipeline_respects_filter _ _ _).2 (by decide)⟩

/-! ### Builder import/export (C4, C7) -/

/-- C4 counterexample: a file whose JSON parses to a non-array leaves the
draft untouched but raises no user-visible error, contrary to the claim that
both failure cases are rejected with a visible error. -/
theorem import_non_array_is_silent :
    importMessages
        [{ localId := "d0",
           payload := { role := Role.user,
                        content := [{ type := "text", text := some "hi" }],
                        ts := 1 } }]
        (fun _ => "fresh") ImportInput.jsonNonArray =
      ([{ localId := "d0",
          payload := { role := Role.user,
                       content := [{ type := "text", text := some "hi" }],
                       ts := 1 } }], false) :=
  rfl

/-- C4 (amended): malformed JSON is rejected with a user-visible error and the
draft kept; a valid-JSON non-array top level also leaves the draft untouched,
but silently — no error is surfaced in that case. -/
theorem importMessages_failure_semantics (current : List DraftMessage)
    (fresh : Nat → String) :
    importMessages current fresh ImportInput.badJson = (current, true) ∧
      importMessages current fresh ImportInput.jsonNonArray = (current, false) :=
  ⟨rfl, rfl⟩

theorem importWithIds_map_payload (fresh : Nat → String) :
    ∀ (ms : List BMessage) (i : Nat),
      (importWithIds fresh i (ms.map BMessage.toRaw)).map
          (fun d => d.payload) = ms
  | [], _ => rfl
  | m :: rest, i => by
    simp only [List.map_cons, importWithIds, importOne, BMessage.toRaw,
      importWithIds_map_payload fresh rest (i + 1)]

/-- C7: importing the export of a draft reproduces the draft exactly up to
the regenerated local ids — same length, same role sequence, and the same
content blocks field for field. -/
theorem import_export_round_trip (drafts : List DraftMessage)
    (fresh : Nat → String) :
    (importWithIds fresh 0 ((exportMessages drafts).map BMessage.toRaw)).map
        (fun d => d.payload) = drafts.map (fun d => d.payload) := by
  have h := importWithIds_map_payload fresh (drafts.map (fun d => d.payload)) 0
  simpa only [exportMessages] using h

/-! ### Request translation (C8) -/

/-- C8: a user-role draft message is emitted as one external `tool` message
per `tool_result` block — role `tool`, `tool_call_id` the block's
`tool_use_id`, content the block's content — followed by a single `user`
message holding the remaining blocks (text passed through, images as
data-URL entries), present only when such blocks exist. -/
theorem translate_user_message (msg : BMessage) (h : msg.role = Role.user) :
    translateMessage msg =
      (msg.content.filter (fun b => b.type == "tool_result")).map (fun tr =>
        { role := "tool",
          content := OAIContent.str (orDefault tr.content ""),
          tool_call_id := some (orDefault tr.tool_use_id "") }) ++
      (if msg.content.filter (fun b => b.type != "tool_result") = [] then []
       else [{ role := "user",
               content := OAIContent.parts
                 ((msg.content.filter (fun b => b.type != "tool_result")).map
                   userBlockToPart) }]) := by
  by_cases he : msg.content.filter (fun b => b.type != "tool_result") = []
  · have hlen : ¬ (msg.content.filter (fun b => b.type != "tool_result")).length > 0 := by
      simp [he]
    simp only [translateMessage, h, if_neg hlen, if_pos he]
  · have hlen : (msg.content.filter (fun b => b.type != "tool_result")).length > 0 :=
      List.length_pos.mpr he
    simp only [translateMessage, h, if_pos hlen, if_neg he]

/-- Witness for C8: the spec's example — one `tool_result(a1, "ok")` and one
`text("thanks")` block become exactly a tool message then a user message. -/
theorem translate_user_message_witness :
    translateMessage
        { role := Role.user,
          content := [{ type := "tool_result", tool_use_id := some "a1",
                        content := some "ok" },
                      { type := "text", text := some "thanks" }],
          ts := 1 } =
      [{ role := "tool", content := OAIContent.str "ok",
         tool_call_id := some "a1" },
       { role := "user", content := OAIContent.parts [OAIPart.textPart "thanks"] }] :=
  (translate_user_message
    { role := Role.user,
      content := [{ type := "tool_result", tool_use_id := some "a1",
                    content := some "ok" },
                  { type := "text", text := some "thanks" }],
      ts := 1 } rfl).trans (by decide)

/-! ### Tool-result completeness analyzer (C2, C10) -/

theorem strBeq_comm (a b : String) : (a == b) = (b == a) := by
  by_cases h : a = b
  · subst h
    rfl
  · have h2 : b ≠ a := fun hh => h hh.symm
    simp [h, h2]

theorem contains_concat (x y : String) :
    ∀ s : List String, (s ++ [x]).contains y = (s.contains y || y == x)
  | [] => by
    by_cases h : y = x <;> simp [List.contains_cons, h]
  | a :: s => by
    simp only [List.cons_append, List.contains_cons, contains_concat x y s,
      Bool.or_assoc]

theorem addUnique_contains (s : List String) (x y : String) :
    (addUnique s x).contains y = (s.contains y || y == x) := by
  unfold addUnique
  by_cases h : s.contains x = true
  · rw [if_pos h]
    by_cases hyx : (y == x) = true
    · have hy : y = x := by simpa using hyx
      subst hy
      rw [h]
      simp
    · simp only [Bool.not_eq_true] at hyx
      simp [hyx]
  · rw [if_neg h, contains_concat]

theorem lookup_append (k : String) :
    ∀ l1 l2 : List (String × Nat × Nat),
      (l1 ++ l2).lookup k = ((l1.lookup k).or (l2.lookup k))
  | [], l2 => by simp
  | (k0, v0) :: rest, l2 => by
    by_cases h : (k == k0) = true
    · simp [List.lookup, h]
    · simp only [Bool.not_eq_true] at h
      simp only [List.cons_append, List.lookup, h]
      exact lookup_append k rest l2

theorem lookup_none_of_no_key (k : String) :
    ∀ m : List (String × Nat × Nat),
      m.any (fun p => p.1 == k) = false → m.lookup k = none
  | [], _ => rfl
  | (k0, v0) :: rest, h => by
    simp only [List.any_cons, Bool.or_eq_false_iff] at h
    have hk : (k == k0) = false := by
      rw [strBeq_comm]
      exact h.1
    simp only [List.lookup, hk]
    exact lookup_none_of_no_key k rest h.2

theorem lookup_map_replace_ne (k k2 : String) (v : Nat × Nat)
    (hne : (k2 == k) = false) :
    ∀ m : List (String × Nat × Nat),
      (m.map (fun p => if p.1 == k then (k, v) else p)).lookup k2 = m.lookup k2
  | [] => rfl
  | (k0, v0) :: rest => by
    simp only [List.map_cons]
    by_cases h0 : (k0 == k) = true
    · rw [show (if ((k0, v0).1 == k) = true then (k, v) else (k0, v0)) = (k, v) from
        if_pos h0]
      have hk0 : k0 = k := by simpa using h0
      subst hk0
      simp only [List.lookup, hne]
      exact lookup_map_replace_ne k0 k2 v hne rest
    · rw [show (if ((k0, v0).1 == k) = true then (k, v) else (k0, v0)) = (k0, v0) from
        if_neg h0]
      simp only [List.lookup]
      by_cases h2 : (k2 == k0) = true
      · simp [h2]
      · have h2f : (k2 == k0) = false := by simpa using h2
        simp only [h2f]
        exact lookup_map_replace_ne k k2 v hne rest

theorem lookup_map_replace (k k2 : String) (v : Nat × Nat)
    (heq : (k2 == k) = true) :
    ∀ m : List (String × Nat × Nat), m.any (fun p => p.1 == k) = true →
      (m.map (fun p => if p.1 == k then (k, v) else p)).lookup k2 = some v
  | [], h => by simp at h
  | (k0, v0) :: rest, h => by
    simp only [List.map_cons]
    by_cases h0 : (k0 == k) = true
    · rw [show (if ((k0, v0).1 == k) = true then (k, v) else (k0, v0)) = (k, v) from
        if_pos h0]
      simp only [List.lookup, heq]
    · rw [show (if ((k0, v0).1 == k) = true then (k, v) else (k0, v0)) = (k0, v0) from
        if_neg h0]
      have h0f : (k0 == k) = false := by simpa using h0
      simp only [List.any_cons, h0f, Bool.false_or] at h
      have hk2 : k2 = k := by simpa using heq
      have h2 : (k2 == k0) = false := by
        subst hk2
        rw [strBeq_comm]
        exact h0f
      simp only [List.lookup, h2]
      exact lookup_map_replace k k2 v heq rest h

theorem mapSet_lookup (m : List (String × Nat × Nat)) (k : String) (v : Nat × Nat)
    (k2 : String) :
    (mapSet m k v).lookup k2 =
      if (k2 == k) = true then some v else m.lookup k2 := by
  unfold mapSet
  by_cases hany : m.any (fun p => p.1 == k) = true
  · rw [if_pos hany]
    by_cases hk2 : (k2 == k) = true
    · rw [if_pos hk2]
      exact lookup_map_replace k k2 v hk2 m hany
    · rw [if_neg hk2]
      have hk2f : (k2 == k) = false := by simpa using hk2
      exact lookup_map_replace_ne k k2 v hk2f m
  · rw [if_neg hany]
    simp only [Bool.not_eq_true] at hany
    rw [lookup_append]
    by_cases hk2 : (k2 == k) = true
    · rw [if_pos hk2]
      have hk : k2 = k := by simpa using hk2
      subst hk
      rw [lookup_none_of_no_key k2 m hany]
      simp [List.lookup, hk2]
    · rw [if_neg hk2]
      have hk2f : (k2 == k) = false := by simpa using hk2
      simp [List.lookup, hk2f]

/-- The positions map has pairwise distinct keys. -/
def keysNodup (m : List (String × Nat × Nat)) : Prop :=
  (m.map (fun p => p.1)).Nodup

theorem mapSet_keysNodup (m : List (String × Nat × Nat)) (k : String) (v : Nat × Nat)
    (h : keysNodup m) : keysNodup (mapSet m k v) := by
  unfold mapSet
  by_cases hany : m.any (fun p => p.1 == k) = true
  · rw [if_pos hany]
    unfold keysNodup at h ⊢
    have hmap : (m.map (fun p => if p.1 == k then (k, v) else p)).map (fun p => p.1) =
        m.map (fun p => p.1) := by
      rw [List.map_map]
      apply List.map_congr_left
      intro p _
      by_cases hp : (p.1 == k) = true
      · have hpk : p.1 = k := by simpa using hp
        simp [hp, hpk]
      · have hpk : ¬(p.1 = k) := by simpa using hp
        simp [hpk]
    rw [hmap]
    exact h
  · rw [if_neg hany]
    simp only [Bool.not_eq_true] at hany
    unfold keysNodup at h ⊢
    rw [List.map_append]
    refine List.Nodup.append h (List.nodup_singleton k) ?_
    intro a ha hb
    simp only [List.map_cons, List.map_nil, List.mem_singleton] at hb
    obtain ⟨p, hp, hpk⟩ := List.mem_map.mp ha
    have hcontra : m.any (fun q => q.1 == k) = true :=
      List.any_eq_true.mpr ⟨p, hp, by simp [hpk, hb]⟩
    rw [hany] at hcontra
    exact Bool.false_ne_true hcontra

theorem any_entry_eq_lookup (id : String) (c : Nat × Nat → Bool) :
    ∀ m : List (String × Nat × Nat), keysNodup m →
      m.any (fun p => (p.1 == id) && c p.2) =
        (match m.lookup id with
         | some v => c v
         | none => false)
  | [], _ => rfl
  | (k0, v0) :: rest, h => by
    have hparts := h
    unfold keysNodup at hparts
    simp only [List.map_cons, List.nodup_cons] at hparts
    have hk0nin : k0 ∉ rest.map (fun p => p.1) := hparts.1
    have hnd : keysNodup rest := hparts.2
    simp only [List.any_cons, List.lookup]
    by_cases h0 : (k0 == id) = true
    · have hk : k0 = id := by simpa using h0
      subst hk
      have hrest : rest.any (fun p => (p.1 == k0) && c p.2) = false := by
        by_cases hr : rest.any (fun p => (p.1 == k0) && c p.2) = true
        · obtain ⟨p, hp, hpc⟩ := List.any_eq_true.mp hr
          rw [Bool.and_eq_true] at hpc
          have hpk : p.1 = k0 := by simpa using hpc.1
          exact absurd (List.mem_map.mpr ⟨p, hp, hpk⟩) hk0nin
        · simpa using hr
      simp [hrest]
    · have h0f : (k0 == id) = false := by simpa using h0
      have hid : (id == k0) = false := by
        rw [strBeq_comm]
        exact h0f
      simp only [h0f, Bool.false_and, Bool.false_or, hid]
      exact any_entry_eq_lookup id c rest hnd

theorem contains_map_fst_filter (q : String × Nat × Nat → Bool) (id : String) :
    ∀ l : List (String × Nat × Nat),
      ((l.filter q).map (fun p => p.1)).contains id =
        l.any (fun p => q p && (p.1 == id))
  | [] => rfl
  | p :: rest => by
    simp only [List.filter_cons, List.any_cons]
    by_cases hq : q p = true
    · rw [if_pos hq, List.map_cons, List.contains_cons,
        contains_map_fst_filter q id rest, hq, Bool.true_and, strBeq_comm id p.1]
    · have hqf : q p = false := by simpa using hq
      rw [if_neg hq, contains_map_fst_filter q id rest, hqf, Bool.false_and,
        Bool.false_or]

theorem scanBlock_fst (mi : Nat) (acc : ScanAcc) (bi : Nat × ContentBlock) :
    (scanBlock mi acc bi).1 =
      if bi.2.type == "tool_result" && strTruthy bi.2.tool_use_id then
        addUnique acc.1 (bi.2.tool_use_id.getD "")
      else acc.1 := by
  unfold scanBlock
  by_cases h1 : (bi.2.type == "tool_result" && strTruthy bi.2.tool_use_id) = true <;>
    by_cases h2 : (bi.2.type == "tool_use" && strTruthy bi.2.id) = true <;>
      simp [h1, h2]

theorem scanBlock_snd (mi : Nat) (acc : ScanAcc) (bi : Nat × ContentBlock) :
    (scanBlock mi acc bi).2 =
      if bi.2.type == "tool_use" && strTruthy bi.2.id then
        mapSet acc.2 (bi.2.id.getD "") (mi, bi.1)
      else acc.2 := by
  unfold scanBlock
  by_cases h1 : (bi.2.type == "tool_result" && strTruthy bi.2.tool_use_id) = true <;>
    by_cases h2 : (bi.2.type == "tool_use" && strTruthy bi.2.id) = true <;>
      simp [h1, h2]

/-- Block-level predicate of `msgHasResult`. -/
def blockIsResult (id : String) (b : ContentBlock) : Bool :=
  b.type == "tool_result" && b.tool_use_id == some id && id != ""

/-- Block-level predicate of `msgHasUse`. -/
def blockIsUse (id : String) (b : ContentBlock) : Bool :=
  b.type == "tool_use" && b.id == some id && id != ""

theorem scanBlock_fst_contains (mi : Nat) (acc : ScanAcc) (bi : Nat × ContentBlock)
    (id : String) :
    ((scanBlock mi acc bi).1).contains id =
      (acc.1.contains id || blockIsResult id bi.2) := by
  rw [scanBlock_fst]
  unfold blockIsResult
  by_cases h1 : (bi.2.type == "tool_result" && strTruthy bi.2.tool_use_id) = true
  · rw [if_pos h1, addUnique_contains]
    congr 1
    rw [Bool.and_eq_true] at h1
    obtain ⟨hty, htr⟩ := h1
    cases hc : bi.2.tool_use_id with
    | none =>
      rw [hc] at htr
      simp [strTruthy] at htr
    | some s =>
      rw [hc] at htr
      have hs : s ≠ "" := by simpa [strTruthy] using htr
      rw [hty, Bool.true_and, Option.getD_some]
      by_cases hid : id = s
      · subst hid
        simp [hs]
      · have h2s : s ≠ id := fun hh => hid hh.symm
        have hopt : ((some s : Option String) == some id) = false := by
          rw [show ((some s : Option String) == some id) = (s == id) from rfl]
          exact beq_eq_false_iff_ne.mpr h2s
        rw [beq_eq_false_iff_ne.mpr hid, hopt, Bool.false_and]
  · rw [if_neg h1]
    have h1f : (bi.2.type == "tool_result" && strTruthy bi.2.tool_use_id) = false := by
      simpa using h1
    rw [Bool.and_eq_false_iff] at h1f
    have hz : (bi.2.type == "tool_result" && bi.2.tool_use_id == some id && id != "") = false := by
      rcases h1f with hA | hB
      · simp [hA]
      · cases hc : bi.2.tool_use_id with
        | none => simp [hc]
        | some s =>
          rw [hc] at hB
          have hs : s = "" := by simpa [strTruthy] using hB
          subst hs
          by_cases hid : id = ""
          · subst hid
            simp
          · have h2s : ("" : String) ≠ id := fun hh => hid hh.symm
            simp [h2s]
    rw [hz, Bool.or_false]

theorem scanBlock_pos_lookup (mi : Nat) (acc : ScanAcc) (bi : Nat × ContentBlock)
    (id : String) :
    ((scanBlock mi acc bi).2).lookup id =
      if blockIsUse id bi.2 = true then some (mi, bi.1) else acc.2.lookup id := by
  rw [scanBlock_snd]
  unfold blockIsUse
  by_cases h2 : (bi.2.type == "tool_use" && strTruthy bi.2.id) = true
  · rw [if_pos h2, mapSet_lookup]
    rw [Bool.and_eq_true] at h2
    obtain ⟨hty, htr⟩ := h2
    cases hc : bi.2.id with
    | none =>
      rw [hc] at htr
      simp [strTruthy] at htr
    | some s =>
      rw [hc] at htr
      have hs : s ≠ "" := by simpa [strTruthy] using htr
      rw [hty, Bool.true_and, Option.getD_some]
      by_cases hid : id = s
      · subst hid
        simp [hs]
      · have h2s : s ≠ id := fun hh => hid hh.symm
        have hopt : ((some s : Option String) == some id) = false := by
          rw [show ((some s : Option String) == some id) = (s == id) from rfl]
          exact beq_eq_false_iff_ne.mpr h2s
        rw [beq_eq_false_iff_ne.mpr hid, hopt, Bool.false_and]
  · rw [if_neg h2]
    have h2f : (bi.2.type == "tool_use" && strTruthy bi.2.id) = false := by
      simpa using h2
    rw [Bool.and_eq_false_iff] at h2f
    have hz : (bi.2.type == "tool_use" && bi.2.id == some id && id != "") = false := by
      rcases h2f with hA | hB
      · simp [hA]
      · cases hc : bi.2.id with
        | none => simp [hc]
        | some s =>
          rw [hc] at hB
          have hs : s = "" := by simpa [strTruthy] using hB
          subst hs
          by_cases hid : id = ""
          · subst hid
            simp
          · have h2s : ("" : String) ≠ id := fun hh => hid hh.symm
            simp [h2s]
    rw [hz, if_neg (by simp)]

/-- `optOr o p`: `o` unless it is `none`, in which case `p`. -/
def optOr (o p : Option Nat) : Option Nat :=
  match o with
  | some x => some x
  | none => p

theorem foldBlocks_fst_contains (m1 : Nat) (id : String) :
    ∀ (bs : List ContentBlock) (n : Nat) (acc : ScanAcc),
      (((List.enumFrom n bs).foldl (scanBlock m1) acc).1).contains id =
        (acc.1.contains id || bs.any (blockIsResult id))
  | [], n, acc => by simp [List.enumFrom]
  | b :: bs, n, acc => by
    simp only [List.enumFrom, List.foldl_cons, List.any_cons]
    rw [foldBlocks_fst_contains m1 id bs (n + 1) (scanBlock m1 acc (n, b)),
      scanBlock_fst_contains, Bool.or_assoc]

theorem foldBlocks_pos_lookup (m1 : Nat) (id : String) :
    ∀ (bs : List ContentBlock) (n : Nat) (acc : ScanAcc),
      ((((List.enumFrom n bs).foldl (scanBlock m1) acc).2).lookup id).map
          (fun v => v.1) =
        if bs.any (blockIsUse id) = true then some m1
        else ((acc.2.lookup id).map (fun v => v.1))
  | [], n, acc => by simp [List.enumFrom]
  | b :: bs, n, acc => by
    simp only [List.enumFrom, List.foldl_cons, List.any_cons]
    rw [foldBlocks_pos_lookup m1 id bs (n + 1) (scanBlock m1 acc (n, b)),
      scanBlock_pos_lookup]
    by_cases hb : blockIsUse id b = true <;>
      by_cases hrest : bs.any (blockIsUse id) = true <;>
        simp [hb, hrest]

theorem scanMessage_fst_contains (acc : ScanAcc) (mi : Nat × VMessage) (id : String) :
    ((scanMessage acc mi).1).contains id =
      (acc.1.contains id || msgHasResult mi.2 id) := by
  unfold scanMessage msgHasResult
  exact foldBlocks_fst_contains mi.1 id (normalizeContent mi.2.content) 0 acc

theorem scanMessage_pos_lookup (acc : ScanAcc) (mi : Nat × VMessage) (id : String) :
    (((scanMessage acc mi).2).lookup id).map (fun v => v.1) =
      if msgHasUse mi.2 id = true then some mi.1
      else ((acc.2.lookup id).map (fun v => v.1)) := by
  unfold scanMessage msgHasUse
  exact foldBlocks_pos_lookup mi.1 id (normalizeContent mi.2.content) 0 acc

theorem foldMsgs_fst_contains (id : String) :
    ∀ (msgs : List VMessage) (n : Nat) (acc : ScanAcc),
      (((List.enumFrom n msgs).foldl scanMessage acc).1).contains id =
        (acc.1.contains id || msgs.any (fun m => msgHasResult m id))
  | [], n, acc => by simp [List.enumFrom]
  | m :: msgs, n, acc => by
    simp only [List.enumFrom, List.foldl_cons, List.any_cons]
    rw [foldMsgs_fst_contains id msgs (n + 1) (scanMessage acc (n, m)),
      scanMessage_fst_contains, Bool.or_assoc]

theorem foldMsgs_pos_lookup (id : String) :
    ∀ (msgs : List VMessage) (n : Nat) (acc : ScanAcc),
      ((((List.enumFrom n msgs).foldl scanMessage acc).2).lookup id).map
          (fun v => v.1) =
        optOr (lastUseFrom n msgs id) ((acc.2.lookup id).map (fun v => v.1))
  | [], n, acc => by simp [List.enumFrom, lastUseFrom, optOr]
  | m :: msgs, n, acc => by
    simp only [List.enumFrom, List.foldl_cons]
    rw [foldMsgs_pos_lookup id msgs (n + 1) (scanMessage acc (n, m)),
      scanMessage_pos_lookup]
    cases hL : lastUseFrom (n + 1) msgs id with
    | some i => simp [lastUseFrom, optOr, hL]
    | none =>
      by_cases hu : msgHasUse m id = true <;> simp [lastUseFrom, optOr, hL, hu]

theorem toolScan_results (msgs : List VMessage) (id : String) :
    ((toolScan msgs).1).contains id = answeredB msgs id := by
  unfold toolScan answeredB
  rw [show msgs.enum = List.enumFrom 0 msgs from rfl,
    foldMsgs_fst_contains id msgs 0 ([], [])]
  simp [List.contains]

theorem toolScan_positions (msgs : List VMessage) (id : String) :
    (((toolScan msgs).2).lookup id).map (fun v => v.1) = lastUseFrom 0 msgs id := by
  unfold toolScan
  rw [show msgs.enum = List.enumFrom 0 msgs from rfl,
    foldMsgs_pos_lookup id msgs 0 ([], [])]
  cases hL : lastUseFrom 0 msgs id <;> simp [optOr, List.lookup]

theorem scanBlock_keysNodup (mi : Nat) (acc : ScanAcc) (bi : Nat × ContentBlock)
    (h : keysNodup acc.2) : keysNodup (scanBlock mi acc bi).2 := by
  rw [scanBlock_snd]
  by_cases hc : (bi.2.type == "tool_use" && strTruthy bi.2.id) = true
  · rw [if_pos hc]
    exact mapSet_keysNodup acc.2 _ _ h
  · rw [if_neg hc]
    exact h

theorem foldBlocks_keysNodup (m1 : Nat) :
    ∀ (bs : List (Nat × ContentBlock)) (acc : ScanAcc), keysNodup acc.2 →
      keysNodup ((bs.foldl (scanBlock m1) acc).2)
  | [], _acc, h => h
  | b :: bs, acc, h =>
    foldBlocks_keysNodup m1 bs (scanBlock m1 acc b) (scanBlock_keysNodup m1 acc b h)

theorem scanMessage_keysNodup (acc : ScanAcc) (mi : Nat × VMessage)
    (h : keysNodup acc.2) : keysNodup (scanMessage acc mi).2 :=
  foldBlocks_keysNodup mi.1 (normalizeContent mi.2.content).enum acc h

theorem foldMsgs_keysNodup :
    ∀ (msgs : List (Nat × VMessage)) (acc : ScanAcc), keysNodup acc.2 →
      keysNodup ((msgs.foldl scanMessage acc).2)
  | [], _acc, h => h
  | m :: msgs, acc, h =>
    foldMsgs_keysNodup msgs (scanMessage acc m) (scanMessage_keysNodup acc m h)

theorem toolScan_keysNodup (msgs : List VMessage) : keysNodup (toolScan msgs).2 :=
  foldMsgs_keysNodup msgs.enum ([], []) (by simp [keysNodup])

theorem any_entry_eq_lookup2 (id : String) (q : String × Nat × Nat → Bool) :
    ∀ m : List (String × Nat × Nat), keysNodup m →
      m.any (fun p => q p && (p.1 == id)) =
        (match m.lookup id with
         | some v => q (id, v)
         | none => false)
  | [], _ => rfl
  | (k0, v0) :: rest, h => by
    have hparts := h
    unfold keysNodup at hparts
    simp only [List.map_cons, List.nodup_cons] at hparts
    have hk0nin : k0 ∉ rest.map (fun p => p.1) := hparts.1
    have hnd : keysNodup rest := hparts.2
    simp only [List.any_cons, List.lookup]
    by_cases h0 : (k0 == id) = true
    · have hk : k0 = id := by simpa using h0
      subst hk
      have hrest : rest.any (fun p => q p && (p.1 == k0)) = false := by
        by_cases hr : rest.any (fun p => q p && (p.1 == k0)) = true
        · obtain ⟨p, hp, hpc⟩ := List.any_eq_true.mp hr
          rw [Bool.and_eq_true] at hpc
          have hpk : p.1 = k0 := by simpa using hpc.2
          exact absurd (List.mem_map.mpr ⟨p, hp, hpk⟩) hk0nin
        · simpa using hr
      simp [hrest]
    · have h0f : (k0 == id) = false := by simpa using h0
      have hid : (id == k0) = false := by
        rw [strBeq_comm]
        exact h0f
      simp only [h0f, Bool.and_false, Bool.false_or, hid]
      exact any_entry_eq_lookup2 id q rest hnd

theorem lastUseFrom_concat (id : String) (m : VMessage) :
    ∀ (ms : List VMessage) (n : Nat),
      lastUseFrom n (ms ++ [m]) id =
        if msgHasUse m id = true then some (n + ms.length)
        else lastUseFrom n ms id
  | [], n => by
    by_cases hu : msgHasUse m id = true <;> simp [lastUseFrom, hu]
  | a :: ms, n => by
    have ih := lastUseFrom_concat id m ms (n + 1)
    rw [List.cons_append,
      show lastUseFrom n (a :: (ms ++ [m])) id =
        (match lastUseFrom (n + 1) (ms ++ [m]) id with
         | some i => some i
         | none => if msgHasUse a id = true then some n else none) from rfl,
      ih]
    by_cases hu : msgHasUse m id = true
    · rw [if_pos hu, if_pos hu]
      show some (n + 1 + ms.length) = some (n + (a :: ms).length)
      congr 1
      simp only [List.length_cons]
      omega
    · rw [if_neg hu, if_neg hu]
      rfl

theorem lastUseFrom_lt (id : String) :
    ∀ (ms : List VMessage) (n i : Nat), lastUseFrom n ms id = some i →
      i < n + ms.length
  | [], n, i, h => by simp [lastUseFrom] at h
  | m :: ms, n, i, h => by
    simp only [lastUseFrom] at h
    cases hL : lastUseFrom (n + 1) ms id with
    | some j =>
      rw [hL] at h
      have hj := lastUseFrom_lt id ms (n + 1) j hL
      simp only [Option.some.injEq] at h
      subst h
      simp only [List.length_cons]
      omega
    | none =>
      rw [hL] at h
      by_cases hu : msgHasUse m id = true
      · rw [if_pos hu] at h
        simp only [Option.some.injEq] at h
        subst h
        simp only [List.length_cons]
        omega
      · rw [if_neg hu] at h
        exact absurd h (Option.noConfusion)

theorem lastUseFrom_none_iff (id : String) :
    ∀ (ms : List VMessage) (n : Nat),
      lastUseFrom n ms id = none ↔ ms.any (fun m => msgHasUse m id) = false
  | [], n => by simp [lastUseFrom]
  | m :: ms, n => by
    simp only [lastUseFrom, List.any_cons]
    cases hL : lastUseFrom (n + 1) ms id with
    | some j =>
      have hany : ms.any (fun m => msgHasUse m id) = true := by
        rcases Bool.eq_false_or_eq_true (ms.any (fun m => msgHasUse m id)) with ht | hf
        · exact ht
        · exact absurd ((lastUseFrom_none_iff id ms (n + 1)).mpr hf)
            (by simp [hL])
      simp [hany]
    | none =>
      have hany : ms.any (fun m => msgHasUse m id) = false :=
        (lastUseFrom_none_iff id ms (n + 1)).mp hL
      by_cases hu : msgHasUse m id = true <;> simp [hu, hany]

/-- The central characterization of `toolUsesMissingResults`: an id is in the
missing set iff the scan recorded a last tool-use position for it, no tool
result anywhere answers it, and that position lies strictly before the last
message. -/
theorem missing_contains_char (msgs : List VMessage) (id : String) :
    (toolUsesMissingResults msgs).contains id =
      (match lastUseFrom 0 msgs id with
       | some i => !answeredB msgs id && decide (i < msgs.length - 1)
       | none => false) := by
  unfold toolUsesMissingResults
  rw [contains_map_fst_filter, any_entry_eq_lookup2 id _ _ (toolScan_keysNodup msgs)]
  cases hLk : ((toolScan msgs).2).lookup id with
  | some v =>
    have hfst : lastUseFrom 0 msgs id = some v.1 := by
      rw [← toolScan_positions, hLk]
      rfl
    rw [hfst]
    simp only [toolScan_results]
  | none =>
    have hfst : lastUseFrom 0 msgs id = none := by
      rw [← toolScan_positions, hLk]
      rfl
    rw [hfst]

/-- C2: for an id actually used by some tool_use block, the id is flagged
missing iff no tool_result anywhere answers it and the last message of the
conversation does not contain a tool_use with that id (a pending use in the
final message is never flagged). -/
theorem toolUse_missing_iff (msgs : List VMessage) (id : String)
    (h : usedB msgs id = true) :
    (toolUsesMissingResults msgs).contains id =
      (!answeredB msgs id && !usedInLastB msgs id) := by
  rcases List.eq_nil_or_concat msgs with hnil | ⟨ms, m, hms⟩
  · subst hnil
    simp [usedB] at h
  · rw [List.concat_eq_append] at hms
    subst hms
    rw [missing_contains_char, lastUseFrom_concat]
    have hlast : usedInLastB (ms ++ [m]) id = msgHasUse m id := by
      unfold usedInLastB
      rw [List.getLast?_concat]
    by_cases hu : msgHasUse m id = true
    · rw [if_pos hu, hlast, hu]
      have hdec : decide ((0 + ms.length) < (ms ++ [m]).length - 1) = false := by
        simp [List.length_append]
      show (!answeredB (ms ++ [m]) id &&
          decide ((0 + ms.length) < (ms ++ [m]).length - 1)) =
        (!answeredB (ms ++ [m]) id && !true)
      rw [hdec]
      simp
    · have huf : msgHasUse m id = false := by simpa using hu
      rw [if_neg hu, hlast, huf]
      have hused : ms.any (fun mm => msgHasUse mm id) = true := by
        unfold usedB at h
        rw [List.any_append] at h
        simp only [List.any_cons, List.any_nil, huf, Bool.or_false] at h
        exact h
      cases hL : lastUseFrom 0 ms id with
      | none =>
        exact absurd ((lastUseFrom_none_iff id ms 0).mp hL) (by simp [hused])
      | some i =>
        have hi : i < 0 + ms.length := lastUseFrom_lt id ms 0 i hL
        have hdec : decide (i < (ms ++ [m]).length - 1) = true := by
          simp only [List.length_append, List.length_cons, List.length_nil,
            decide_eq_true_eq]
          omega
        show (!answeredB (ms ++ [m]) id && decide (i < (ms ++ [m]).length - 1)) =
          (!answeredB (ms ++ [m]) id && !false)
        rw [hdec]
        simp

/-- Witness for C2 on the spec's example `[tool_use(a1)], [text]`: the id is
used, unanswered, not in the last message, and flagged missing. -/
theorem toolUse_missing_iff_witness :
    usedB
        [{ role := Role.assistant,
           content := VContent.blocks [{ type := "tool_use", id := some "a1" }],
           ts := 1 },
         { role := Role.assistant, content := VContent.str "x", ts := 2 }] "a1" = true ∧
      (toolUsesMissingResults
          [{ role := Role.assistant,
             content := VContent.blocks [{ type := "tool_use", id := some "a1" }],
             ts := 1 },
           { role := Role.assistant, content := VContent.str "x", ts := 2 }]).contains
          "a1" =
        (!answeredB
            [{ role := Role.assistant,
               content := VContent.blocks [{ type := "tool_use", id := some "a1" }],
               ts := 1 },
             { role := Role.assistant, content := VContent.str "x", ts := 2 }] "a1" &&
          !usedInLastB
            [{ role := Role.assistant,
               content := VContent.blocks [{ type := "tool_use", id := some "a1" }],
               ts := 1 },
             { role := Role.assistant, content := VContent.str "x", ts := 2 }] "a1") :=
  ⟨by decide, toolUse_missing_iff _ _ (by decide)⟩

/-- C10: a tool_use whose id is answered by a tool_result anywhere in the
conversation — regardless of relative position — is never flagged missing. -/
theorem answered_never_missing (msgs : List VMessage) (id : String)
    (h : answeredB msgs id = true) :
    (toolUsesMissingResults msgs).contains id = false := by
  rw [missing_contains_char]
  cases hL : lastUseFrom 0 msgs id with
  | some i =>
    rw [h]
    simp
  | none => rfl

/-- Witness for C10: the tool_result occurs in the same message as the
tool_use, earlier in block order, and the id is still not flagged. -/
theorem answered_never_missing_witness :
    answeredB
        [{ role := Role.user,
           content := VContent.blocks
             [{ type := "tool_result", tool_use_id := some "a1" },
              { type := "tool_use", id := some "a1" }],
           ts := 1 },
         { role := Role.assistant, content := VContent.str "x", ts := 2 }] "a1" = true ∧
      (toolUsesMissingResults
          [{ role := Role.user,
             content := VContent.blocks
               [{ type := "tool_result", tool_use_id := some "a1" },
                { type := "tool_use", id := some "a1" }],
             ts := 1 },
           { role := Role.assistant, content := VContent.str "x", ts := 2 }]).contains
          "a1" = false :=
  ⟨by decide, answered_never_missing _ _ (by decide)⟩

end RooVersation
